import Mathlib

/-!
Verification of the CBIR multi-descriptor search engine.

This file shallowly embeds the core of the repository:
  * `backend/utils/descriptor_extractor.py` — the five classical descriptor
    extractors (color histogram, LBP, HOG, edge histogram, SIFT);
  * `backend/main.py`, `search_by_multi_descriptor` — the two-pass
    multi-descriptor fusion search (weight rebalancing, first-pass kNN merge,
    score decoding, sorting/truncation, second-pass score completion).

Modelling conventions:
  * machine floats are modelled by exact rationals `ℚ`; values that the code
    obtains through square roots (cosine similarities computed directly,
    L2-normalized vectors) live in `ℝ`;
  * external collaborators (the Elasticsearch kNN oracle, the stored documents,
    the query image's extracted descriptor vectors, and third-party library
    calls such as `skimage.feature.hog` or `cv2.SIFT`) are inputs of the
    embedded functions;
  * a float test `np.linalg.norm v == 0` (resp. `> 0`) is rendered by the
    equivalent rational test `Σ vᵢ² = 0` (resp. `> 0`), keeping branches
    decidable;
  * Python dicts are association lists that preserve insertion order, exactly
    as Python's dict iteration does.
-/

open Classical

noncomputable section

/-- The six descriptor names of `descriptor_configs` (main.py lines 237-244). -/
inductive Desc where
  | vgg
  | color
  | lbp
  | hog
  | edge_histogram
  | sift
  deriving DecidableEq, Fintype

/-- The iteration order of the `weights` dict and of `descriptor_configs`
(main.py lines 208-215 and 237-244). -/
def descList : List Desc :=
  [Desc.vgg, Desc.color, Desc.lbp, Desc.hog, Desc.edge_histogram, Desc.sift]

/-- Dict write `m[k] = v` on an insertion-ordered association list: replaces the
value in place if the key exists, otherwise appends at the end (Python dict
semantics). -/
def setKey {α β : Type} [DecidableEq α] (k : α) (v : β) : List (α × β) → List (α × β)
  | [] => [(k, v)]
  | (k', v') :: rest => if k' = k then (k, v) :: rest else (k', v') :: setKey k v rest

/-- Dict read `m.get(k)` on an association list. -/
def lookupKey {α β : Type} [DecidableEq α] (k : α) : List (α × β) → Option β
  | [] => none
  | (k', v') :: rest => if k' = k then some v' else lookupKey k rest

/-- Sum of squares of a rational vector; `np.linalg.norm v` is `Real.sqrt` of
this quantity. -/
def sumSq (v : List ℚ) : ℚ := (v.map (fun x => x * x)).sum

/-- Dot product `np.dot` of two equal-length vectors. -/
def dotQ (v w : List ℚ) : ℚ := (List.zipWith (fun x y => x * y) v w).sum

/-- Python `round(x, 1)` on a rational. (Python rounds half to even; ties at
the third decimal never arise in the concrete inputs used below, so the
difference is immaterial here.) -/
def round1 (x : ℚ) : ℚ := (round (10 * x) : ℤ) / 10

/-- Decode an Elasticsearch similarity back to a cosine:
`cosine_similarity = (score * 2) - 1` (main.py line 308). -/
def decode_cosine (s : ℚ) : ℚ := s * 2 - 1

/-- Clamp a cosine to a percentage: `max(0, cos*100)` then `min(100, ·)`
(main.py lines 310-312). -/
def pct_of_cosine (c : ℚ) : ℚ := min 100 (max 0 (c * 100))

/-- Modelled from the spec: the backend similarity encoding
`s = (1 + cosine) / 2` (spec §4.2/§6; also stated by the source comment at
main.py lines 296-299). The encoder itself lives in Elasticsearch, outside the
repository. -/
def encode_similarity (c : ℚ) : ℚ := (1 + c) / 2

/-- Percentage of a first-pass Elasticsearch score: decode, clamp, round
(main.py lines 306-313). -/
def pct_of_es_score (s : ℚ) : ℚ := round1 (pct_of_cosine (decode_cosine s))

/-- The request body of `/api/search/multi-descriptor`
(`MultiDescriptorSearchRequest`, main.py lines 142-155). Field defaults are
`top_k = 50`, weights `0.25 / 0.25 / 0.15 / 0.15 / 0.1 / 0.1`. -/
structure MultiDescriptorSearchRequest where
  top_k : ℕ
  vgg_weight : ℚ
  color_weight : ℚ
  lbp_weight : ℚ
  hog_weight : ℚ
  edge_histogram_weight : ℚ
  sift_weight : ℚ
  deriving DecidableEq

/-- The `weights` dict built from the request (main.py lines 208-215). -/
def request_weights (req : MultiDescriptorSearchRequest) : Desc → ℚ
  | Desc.vgg => req.vgg_weight
  | Desc.color => req.color_weight
  | Desc.lbp => req.lbp_weight
  | Desc.hog => req.hog_weight
  | Desc.edge_histogram => req.edge_histogram_weight
  | Desc.sift => req.sift_weight

/-- `active_descriptors = [k for k, v in weights.items() if v > 0]`
(main.py line 218). -/
def active_descriptors (w : Desc → ℚ) : List Desc :=
  descList.filter (fun d => 0 < w d)

/-- The weight-rebalancing block (main.py lines 217-232): when `vgg` is active
together with at least one other active descriptor, `vgg` gets `0.70` and the
remaining `0.30` is split evenly over the other active descriptors; inactive
descriptors keep their requested weight. -/
def rebalance_weights (w : Desc → ℚ) : Desc → ℚ :=
  let act := active_descriptors w
  if Desc.vgg ∈ act ∧ 1 < act.length then
    let other := act.filter (fun d => d ≠ Desc.vgg)
    fun d =>
      if d = Desc.vgg then 7 / 10
      else if d ∈ other then (3 / 10) / (other.length : ℚ)
      else w d
  else w

/-- The effective weights used to build `descriptor_configs`
(main.py lines 237-244 read the `weights` dict after rebalancing). -/
def effective_weights (req : MultiDescriptorSearchRequest) : Desc → ℚ :=
  rebalance_weights (request_weights req)

/-- One stored Elasticsearch document (`hit["_source"]`): the per-descriptor
stored vectors (a key absent from `_source` is `none`), plus the two metadata
flags the result filter looks at (main.py lines 322-329): whether the four
Flickr URL fields are all present/truthy, and whether
`image_status == 'download_failed'`. -/
structure Doc where
  fields : Desc → Option (List ℚ)
  valid_meta : Bool
  download_failed : Bool

/-- The external world of one query: the descriptor vectors extracted from the
query image (`extract_all_descriptors`), the Elasticsearch kNN oracle (per
descriptor and requested `k`; `none` models the search call raising, the
`except` at main.py lines 281-283), and the stored document of each image id. -/
structure Env where
  queryVec : Desc → List ℚ
  search : Desc → ℕ → Option (List (ℕ × ℚ))
  doc : ℕ → Doc

/-- One entry of the `all_results` dict (main.py lines 271-279): the raw and
the weighted score each descriptor's first-pass search gave this image. -/
structure AccEntry where
  descriptor_scores : List (Desc × ℚ)
  weighted_scores : List (Desc × ℚ)
  deriving DecidableEq

/-- Record one first-pass hit `(image_id, score)` of descriptor `d` into
`all_results` (main.py lines 267-279). -/
def record_hit (d : Desc) (wt : ℚ) (acc : List (ℕ × AccEntry)) (hit : ℕ × ℚ) :
    List (ℕ × AccEntry) :=
  let entry := (lookupKey hit.1 acc).getD ⟨[], []⟩
  setKey hit.1
    ⟨setKey d hit.2 entry.descriptor_scores, setKey d (hit.2 * wt) entry.weighted_scores⟩
    acc

/-- One descriptor's first-pass contribution (main.py lines 247-283): skipped
when its weight is `≤ 0` or its search call raises, otherwise every hit is
recorded. -/
def first_pass_step (env : Env) (w : Desc → ℚ) (k : ℕ)
    (acc : List (ℕ × AccEntry)) (d : Desc) : List (ℕ × AccEntry) :=
  if w d ≤ 0 then acc
  else
    match env.search d (k * 2) with
    | none => acc
    | some hits => hits.foldl (record_hit d (w d)) acc

/-- The completed `all_results` dict after the loop over `descriptor_configs`
(main.py lines 247-283); `k` is `request.top_k`. -/
def first_pass (env : Env) (w : Desc → ℚ) (k : ℕ) : List (ℕ × AccEntry) :=
  descList.foldl (first_pass_step env w k) []

/-- One first-pass result candidate (an element of `combined_results`,
main.py lines 333-352, keeping only the fields the core computes). -/
structure Candidate where
  image_id : ℕ
  score : ℚ
  descriptor_scores : List (Desc × ℚ)
  global_match : ℚ
  deriving DecidableEq

/-- Build one element of `combined_results` from an `all_results` entry
(main.py lines 287-352): weighted total, per-descriptor percentages, the
metadata filter, and `global_match` as the mean percentage. `none` means the
entry is skipped by the filter. -/
def mk_candidate (env : Env) (p : ℕ × AccEntry) : Option Candidate :=
  let total_score := (p.2.weighted_scores.map (fun q => q.2)).sum
  let descriptor_percentages :=
    p.2.descriptor_scores.map (fun q => (q.1, pct_of_es_score q.2))
  if (env.doc p.1).valid_meta = false then none
  else if (env.doc p.1).download_failed = true then none
  else
    some
      { image_id := p.1
        score := total_score
        descriptor_scores := descriptor_percentages
        global_match :=
          if descriptor_percentages.length = 0 then 0
          else round1 ((descriptor_percentages.map (fun q => q.2)).sum /
                        (descriptor_percentages.length : ℚ)) }

/-- `combined_results` (main.py lines 286-352), in `all_results` iteration
order. -/
def combined_results (env : Env) (w : Desc → ℚ) (k : ℕ) : List Candidate :=
  (first_pass env w k).filterMap (mk_candidate env)

/-- Stable descending insertion: a candidate is placed after every earlier
candidate whose score is at least as large. -/
def insert_by_score (c : Candidate) : List Candidate → List Candidate
  | [] => [c]
  | x :: xs => if x.score < c.score then c :: x :: xs else x :: insert_by_score c xs

/-- `combined_results.sort(key=lambda x: x["score"], reverse=True)`
(main.py line 355): a stable sort, descending by combined score. -/
def sort_by_score (l : List Candidate) : List Candidate :=
  l.foldl (fun acc c => insert_by_score c acc) []

/-- `top_candidates = combined_results[:request.top_k]` after the sort
(main.py lines 355-358). -/
def top_candidates (env : Env) (w : Desc → ℚ) (k : ℕ) : List Candidate :=
  (sort_by_score (combined_results env w k)).take k

/-- The second pass's direct cosine-similarity score of one descriptor
(main.py lines 384-404): `np.dot` raises on mismatched lengths and the
`except` turns that into `0.0`; with both norms positive the cosine is clamped
to a percentage and rounded, otherwise the score is `0.0`.  The float test
`np.linalg.norm v > 0` is rendered by the equivalent `Σ vᵢ² > 0`. -/
def direct_descriptor_score (q dv : List ℚ) : ℝ :=
  if q.length = dv.length then
    if 0 < sumSq q ∧ 0 < sumSq dv then
      let cosine_sim : ℝ :=
        ((dotQ q dv : ℚ) : ℝ) /
          (Real.sqrt ((sumSq q : ℚ) : ℝ) * Real.sqrt ((sumSq dv : ℚ) : ℝ))
      (round (10 * min 100 (max 0 (cosine_sim * 100))) : ℤ) / 10
    else 0
  else 0

/-- The second pass's `complete_scores` map for one surviving candidate
(main.py lines 370-404): for each descriptor, skip it when its weight is `≤ 0`
or the document lacks its field; reuse the first-pass percentage when present;
otherwise compute the score directly against the query vector. -/
def complete_scores (env : Env) (w : Desc → ℚ) (cand : Candidate) :
    List (Desc × ℝ) :=
  descList.foldl
    (fun acc d =>
      if w d ≤ 0 then acc
      else
        match (env.doc cand.image_id).fields d with
        | none => acc
        | some dv =>
          match lookupKey d cand.descriptor_scores with
          | some p => acc ++ [(d, ((p : ℚ) : ℝ))]
          | none => acc ++ [(d, direct_descriptor_score (env.queryVec d) dv)])
    []

/-- The externally visible record after the second pass (main.py lines
406-410): the per-descriptor map and `global_match` are overwritten, the
temporary `image_id` key is deleted, every other field — in particular the
combined `score` — is untouched. -/
structure FinalCandidate where
  id : ℕ
  score : ℚ
  descriptor_scores : List (Desc × ℝ)
  global_match : ℝ

/-- Apply the second pass to one surviving candidate (main.py lines 364-410). -/
def second_pass_candidate (env : Env) (w : Desc → ℚ) (cand : Candidate) :
    FinalCandidate :=
  let cs := complete_scores env w cand
  { id := cand.image_id
    score := cand.score
    descriptor_scores := cs
    global_match :=
      if cs.length = 0 then 0
      else (round (10 * ((cs.map (fun q => q.2)).sum / (cs.length : ℝ))) : ℤ) / 10 }

/-- `final_results` (main.py lines 364-413): the top candidates, each completed
by the second pass, in unchanged order. -/
def final_results (env : Env) (req : MultiDescriptorSearchRequest) :
    List FinalCandidate :=
  (top_candidates env (effective_weights req) req.top_k).map
    (second_pass_candidate env (effective_weights req))

/-- Modelled from the spec: the error kind `NoUsableDescriptors` (spec §7,
scenario C).  The code of `search_by_multi_descriptor` defines and raises no
such error; the type exists so that the endpoint's outcome can be stated. -/
inductive SearchError where
  | noUsableDescriptors
  deriving DecidableEq

/-- The response body of `/api/search/multi-descriptor` (main.py lines
418-431): the completed results, their count, and an echo of the *original*
request weights. -/
structure MultiResponse where
  results : List FinalCandidate
  total : ℕ
  descriptor_weights : Desc → ℚ

/-- The endpoint `search_by_multi_descriptor` (main.py lines 158-431) for an
already-decoded query image: extract (in `env.queryVec`), rebalance weights,
run the first pass, sort and truncate, run the second pass, and answer with a
success response.  No code path produces a `SearchError`. -/
def search_by_multi_descriptor (env : Env) (req : MultiDescriptorSearchRequest) :
    Except SearchError MultiResponse :=
  Except.ok
    { results := final_results env req
      total := (final_results env req).length
      descriptor_weights := request_weights req }

/-- `DescriptorExtractor.normalize_vector` (descriptor_extractor.py lines
17-23): return the vector unchanged when its norm is zero, else divide by the
norm.  The float test `np.linalg.norm vector == 0` is rendered by the
equivalent `Σ vᵢ² = 0`. -/
def normalize_vector (v : List ℚ) : List ℝ :=
  if sumSq v = 0 then v.map (fun x : ℚ => (x : ℝ))
  else v.map (fun x : ℚ => (x : ℝ) / Real.sqrt ((sumSq v : ℚ) : ℝ))

/-- Sum of squares of a real vector (the squared L2 norm). -/
def sumSqR (v : List ℝ) : ℝ := (v.map (fun x => x * x)).sum

/-- The epsilon `1e-10` added to every color-histogram bin
(descriptor_extractor.py line 66). -/
def eps10 : ℚ := 1 / 10000000000

/-- Modelled per the external library call
`cv2.calcHist([image], [i], None, [8], [0, 256])`
(descriptor_extractor.py line 53): 8 equal-width bins over byte values, bin
`b` counting the pixels whose channel value `v` has `v / 32 = b`. -/
def calcHist8 (channel : List ℕ) : List ℚ :=
  (List.range 8).map (fun b => ((channel.countP (fun v => v / 32 = b) : ℕ) : ℚ))

/-- `ColorHistogramExtractor.extract` (descriptor_extractor.py lines 33-68) on
the non-exception path, with `bins = 8`: concatenate the three channel
histograms, L1-normalize when the total is positive, add `1e-10` to every bin.
The three arguments are the R, G, B channel values of the decoded image. -/
def ColorHistogramExtractor.extract (r g b : List ℕ) : List ℚ :=
  let descriptor := calcHist8 r ++ calcHist8 g ++ calcHist8 b
  let sum_hist := descriptor.sum
  let normalized := if 0 < sum_hist then descriptor.map (fun x => x / sum_hist)
                    else descriptor
  normalized.map (fun x => x + eps10)

/-- The LBP histogram (descriptor_extractor.py lines 110-117):
`n_bins = int(lbp.max() + 1)` and `np.histogram(lbp, bins=n_bins,
range=(0, n_bins), density=True)`.  On the integer LBP codes every bin has
width 1, so bin `b` holds `count(b) / total`.  The argument is the flattened
array of per-pixel LBP codes. -/
def lbp_hist (codes : List ℕ) : List ℚ :=
  let n_bins := codes.foldr max 0 + 1
  (List.range n_bins).map (fun b => ((codes.count b : ℕ) : ℚ) / (codes.length : ℚ))

/-- `LBPExtractor.extract` (descriptor_extractor.py lines 85-122) on the
non-exception path: the density histogram of the LBP codes followed by the
final L2 normalization.  The argument is the flattened output of
`skimage.feature.local_binary_pattern` on the grayscale image. -/
def LBPExtractor.extract (codes : List ℕ) : List ℝ :=
  normalize_vector (lbp_hist codes)

/-- Modelled from the spec: `skimage.feature.local_binary_pattern` with
`method='uniform'`, `P = 8`, `R = 1` (spec §4.1: "uniform local binary
pattern, `n_points=8`, `radius=1`"; the library is external to the
repository).  Each pixel's code compares its 8 circular neighbours to the
centre (a bit is set when the neighbour is `≥` the centre); a uniform circular
pattern (at most two 0/1 transitions) is coded by its number of set bits
(`0..8`), every other pattern by `P + 1 = 9`.  On a constant image every
neighbour equals its centre, so every pixel's pattern is all-ones — uniform
with 8 set bits — and every code is `8`. -/
def lbp_codes_constant (h w : ℕ) : List ℕ :=
  List.replicate (h * w) 8

/-- The pad-or-truncate step of `HOGExtractor.extract`
(descriptor_extractor.py lines 179-184): fix the raw HOG feature vector to
exactly 81 entries. -/
def hog_fit_81 (features : List ℚ) : List ℚ :=
  if features.length = 81 then features
  else if features.length < 81 then
    features ++ List.replicate (81 - features.length) 0
  else features.take 81

/-- `HOGExtractor.extract` (descriptor_extractor.py lines 144-192) on the
non-exception path: the raw `skimage.feature.hog` features of the 128×128
resized grayscale image (an external library call, taken as the argument) are
padded or truncated to 81 entries and L2-normalized. -/
def HOGExtractor.extract (features : List ℚ) : List ℝ :=
  normalize_vector (hog_fit_81 features)

/-- The RootSIFT eps `1e-7` (descriptor_extractor.py line 312). -/
def epsSIFT : ℝ := 1 / 10000000

/-- L2 norm of a real vector. -/
def normR (v : List ℝ) : ℝ := Real.sqrt (sumSqR v)

/-- RootSIFT per-descriptor normalization (descriptor_extractor.py lines
314-321): L1-normalize each row (with eps in the denominator), take the
square root of each entry shifted by eps, then L2-normalize each row (again
with eps in the denominator). -/
def rootSIFT_rows (rows : List (List ℚ)) : List (List ℝ) :=
  let l1 := rows.map (fun row => row.map (fun x : ℚ => (x : ℝ) / (((row.sum : ℚ) : ℝ) + epsSIFT)))
  let sq := l1.map (fun row => row.map (fun x => Real.sqrt (x + epsSIFT)))
  sq.map (fun row => row.map (fun x => x / (normR row + epsSIFT)))

/-- Number of columns of a 2-D array stored as a list of equal-length rows
(`descriptors` is an `n × d` numpy array, so every row has the first row's
length). -/
def col_count (rows : List (List ℝ)) : ℕ :=
  (rows.head?.map List.length).getD 0

/-- `np.mean(descriptors, axis=0)` (descriptor_extractor.py line 326). -/
def mean_pool (rows : List (List ℝ)) : List ℝ :=
  (List.range (col_count rows)).map
    (fun j => (rows.map (fun row => row.getD j 0)).sum / (rows.length : ℝ))

/-- `np.std(descriptors, axis=0)` (descriptor_extractor.py line 327),
population standard deviation. -/
def std_pool (rows : List (List ℝ)) : List ℝ :=
  let m := mean_pool rows
  (List.range (col_count rows)).map
    (fun j =>
      Real.sqrt ((rows.map (fun row => (row.getD j 0 - m.getD j 0) ^ 2)).sum /
                  (rows.length : ℝ)))

/-- The mean/std aggregation of `SIFTExtractor.extract`
(descriptor_extractor.py lines 310-355) with `descriptor_size = 128`
(`half_dim = 64`): slice or zero-pad the two pooled vectors to 64 entries
each, concatenate, fix the length to 128, and L2-normalize when the norm
exceeds eps. -/
def sift_aggregate (rows : List (List ℚ)) : List ℝ :=
  let pooled := rootSIFT_rows rows
  let mp := mean_pool pooled
  let sp := std_pool pooled
  let mean_part := if 64 ≤ mp.length then mp.take 64
                   else mp ++ List.replicate (64 - mp.length) 0
  let std_part := if 64 ≤ mp.length then sp.take 64
                  else sp ++ List.replicate (64 - sp.length) 0
  let aggregated := mean_part ++ std_part
  let aggregated := if aggregated.length < 128 then
                      aggregated ++ List.replicate (128 - aggregated.length) 0
                    else if 128 < aggregated.length then aggregated.take 128
                    else aggregated
  if epsSIFT < normR aggregated then aggregated.map (fun x => x / normR aggregated)
  else aggregated

/-- `SIFTExtractor.extract` (descriptor_extractor.py lines 282-359) with
`n_features = 100`, `descriptor_size = 128`: the argument is the output of the
external detector `self.sift.detectAndCompute` (`none` models `descriptors is
None`).  When no keypoints are detected the 128-dim zero vector is returned;
otherwise the detected descriptors are aggregated. -/
def SIFTExtractor.extract (descriptors : Option (List (List ℚ))) : List ℝ :=
  match descriptors with
  | none => List.replicate 128 (0 : ℝ)
  | some rows =>
    if rows.length = 0 then List.replicate 128 (0 : ℝ)
    else sift_aggregate rows

/-- A request with only `color` and `lbp` active (weight `1/2` each). -/
def reqColorLbp : MultiDescriptorSearchRequest :=
  { top_k := 5, vgg_weight := 0, color_weight := 1/2, lbp_weight := 1/2,
    hog_weight := 0, edge_histogram_weight := 0, sift_weight := 0 }

/-- An environment in which the `color` search returns image `1` with a
perfect score, the `lbp` search succeeds with no hits, and the stored document
of image `1` has a `color_histogram` field but no `lbp_features` field. -/
def envMissingLbp : Env :=
  { queryVec := fun _ => [1]
    search := fun d _ =>
      match d with
      | Desc.color => some [(1, 1)]
      | _ => some []
    doc := fun i =>
      if i = 1 then
        { fields := fun d => match d with | Desc.color => some [1] | _ => none
          valid_meta := true
          download_failed := false }
      else { fields := fun _ => none, valid_meta := false, download_failed := false } }

/-- The surviving first-pass candidate of `envMissingLbp` / `reqColorLbp`:
image `1`, weighted total `1/2`, a 100% `color` match. -/
def candMissingLbp : Candidate :=
  { image_id := 1, score := 1/2,
    descriptor_scores := [(Desc.color, 100)], global_match := 100 }

/-- A request whose weights are all zero. -/
def reqAllZero : MultiDescriptorSearchRequest :=
  { top_k := 50, vgg_weight := 0, color_weight := 0, lbp_weight := 0,
    hog_weight := 0, edge_histogram_weight := 0, sift_weight := 0 }

/-- A benign environment for the all-zero-weights scenario. -/
def envTrivial : Env :=
  { queryVec := fun _ => []
    search := fun _ _ => some []
    doc := fun _ => { fields := fun _ => none, valid_meta := true, download_failed := false } }

/-- A request with four active descriptors: `color`, `lbp`, `hog`, `sift`,
weight `1/4` each. -/
def reqFourActive : MultiDescriptorSearchRequest :=
  { top_k := 5, vgg_weight := 0, color_weight := 1/4, lbp_weight := 1/4,
    hog_weight := 1/4, edge_histogram_weight := 0, sift_weight := 1/4 }

/-- An environment in which the `sift` search call raises while the `color`,
`lbp` and `hog` searches succeed and return image `1`; the stored document of
image `1` carries all four descriptor fields — including `sift_features`. -/
def envSiftFails : Env :=
  { queryVec := fun _ => [1]
    search := fun d _ =>
      match d with
      | Desc.color => some [(1, 9/10)]
      | Desc.lbp => some [(1, 4/5)]
      | Desc.hog => some [(1, 1)]
      | Desc.sift => none
      | _ => some []
    doc := fun i =>
      if i = 1 then
        { fields := fun d =>
            match d with
            | Desc.color => some [1]
            | Desc.lbp => some [1]
            | Desc.hog => some [1]
            | Desc.sift => some [1]
            | _ => none
          valid_meta := true
          download_failed := false }
      else { fields := fun _ => none, valid_meta := false, download_failed := false } }

lemma sum_map_add {α M : Type} [AddCommMonoid M] (l : List α) (f g : α → M) :
    (l.map (fun x => f x + g x)).sum = (l.map f).sum + (l.map g).sum := by
  induction l with
  | nil => simp
  | cons a t ih => simp [ih, add_add_add_comm]

lemma sum_map_div (l : List ℚ) (g : ℚ → ℚ) (c : ℚ) :
    (l.map (fun x => g x / c)).sum = (l.map g).sum / c := by
  induction l with
  | nil => simp
  | cons a t ih => simp [ih, add_div]

lemma sum_map_add_const (l : List ℚ) (e : ℚ) :
    (l.map (fun x => x + e)).sum = l.sum + l.length * e := by
  induction l with
  | nil => simp
  | cons a t ih => simp [ih]; ring

lemma length_filter_ne {α : Type} [DecidableEq α] (l : List α) (x : α)
    (hnd : l.Nodup) (hx : x ∈ l) :
    (l.filter (fun y => y ≠ x)).length + 1 = l.length := by
  induction l with
  | nil => cases hx
  | cons a t ih =>
    by_cases hax : a = x
    · subst hax
      have hnot : a ∉ t := (List.nodup_cons.mp hnd).1
      have heq : t.filter (fun y => y ≠ a) = t := by
        apply List.filter_eq_self.mpr
        intro y hy
        have hya : y ≠ a := fun h => hnot (h ▸ hy)
        simp [hya]
      simp [List.filter_cons, heq]
      intro y hy
      exact fun h => hnot (h ▸ hy)
    · have hx' : x ∈ t := by
        rcases List.mem_cons.mp hx with h | h
        · exact absurd h.symm hax
        · exact h
      have hrec := ih (List.nodup_cons.mp hnd).2 hx'
      have hstep : List.filter (fun y => decide (y ≠ x)) (a :: t)
          = a :: List.filter (fun y => decide (y ≠ x)) t := by
        simp [List.filter_cons, hax]
      rw [hstep, List.length_cons, List.length_cons]
      omega

lemma sum_map_of_mem_nodup {α : Type} [DecidableEq α] (l : List α) (f : α → ℚ)
    (x : α) (a b : ℚ) (hnd : l.Nodup) (hx : x ∈ l) (hfx : f x = a)
    (hother : ∀ y ∈ l, y ≠ x → f y = b) :
    (l.map f).sum = a + ((l.length - 1 : ℕ) : ℚ) * b := by
  induction l with
  | nil => cases hx
  | cons h t ih =>
    rcases List.mem_cons.mp hx with hh | hh
    · subst hh
      have hnot : x ∉ t := (List.nodup_cons.mp hnd).1
      have ht : t.map f = List.replicate t.length b := by
        apply List.eq_replicate_iff.mpr
        refine ⟨by simp, ?_⟩
        intro y hy
        rcases List.mem_map.mp hy with ⟨z, hz, rfl⟩
        exact hother z (List.mem_cons_of_mem _ hz) (fun hzx => hnot (hzx ▸ hz))
      simp [hfx, ht, List.sum_replicate, nsmul_eq_mul]
    · have hhx : h ≠ x := by
        intro hhx
        exact (List.nodup_cons.mp hnd).1 (hhx ▸ hh)
      have hfh : f h = b := hother h (List.mem_cons_self h t) hhx
      have hlen : 1 ≤ t.length := List.length_pos.mpr (List.ne_nil_of_mem hh)
      have := ih (List.nodup_cons.mp hnd).2 hh
        (fun y hy hyx => hother y (List.mem_cons_of_mem _ hy) hyx)
      simp only [List.map_cons, List.sum_cons, this, hfh, List.length_cons]
      have hcast : ((t.length - 1 : ℕ) : ℚ) = (t.length : ℚ) - 1 := by
        push_cast [Nat.cast_sub hlen]
        ring
      have hcast2 : ((t.length + 1 - 1 : ℕ) : ℚ) = (t.length : ℚ) := by
        push_cast
        ring
      rw [hcast, hcast2]
      ring

/-- C5: decoding inverts the backend's similarity encoding exactly — for any
cosine in `[-1, 1]`, `2 * ((1 + cos) / 2) - 1 = cos` — the clamped percentage
`min 100 (max 0 (cos * 100))` always lies in `[0, 100]`, and a negative cosine
yields percentage `0`, never a negative value. -/
theorem decode_encode_round_trip (c : ℚ) (h1 : -1 ≤ c) (h2 : c ≤ 1) :
    decode_cosine (encode_similarity c) = c ∧
    0 ≤ pct_of_cosine c ∧ pct_of_cosine c ≤ 100 ∧
    (c < 0 → pct_of_cosine c = 0) := by
  refine ⟨?_, ?_, ?_, ?_⟩
  · unfold decode_cosine encode_similarity
    ring
  · unfold pct_of_cosine
    exact le_min (by norm_num) (le_max_left 0 _)
  · unfold pct_of_cosine
    exact min_le_left _ _
  · intro hc
    unfold pct_of_cosine
    have : max 0 (c * 100) = 0 := max_eq_left (by nlinarith)
    rw [this]
    exact min_eq_right (by norm_num)

/-- Witness for C5 at the concrete cosine `-1/2`: the round trip recovers it
and its percentage is clamped to `0`. -/
theorem decode_encode_round_trip_witness :
    decode_cosine (encode_similarity (-1/2)) = -1/2 ∧ pct_of_cosine (-1/2) = 0 :=
  ⟨(decode_encode_round_trip (-1/2) (by norm_num) (by norm_num)).1,
   (decode_encode_round_trip (-1/2) (by norm_num) (by norm_num)).2.2.2 (by norm_num)⟩

lemma descList_nodup : descList.Nodup := by decide

/-- C4: the rebalancing invariant — whenever `vgg` is active together with
`n ≥ 1` other active descriptors, the effective weights are exactly `0.70`
for `vgg` and `0.30 / n` for every other active descriptor, and the effective
weights of the active descriptors sum to `1`, whatever the requested weights
were. -/
theorem rebalance_weights_invariant (w : Desc → ℚ) (n : ℕ)
    (hvgg : Desc.vgg ∈ active_descriptors w)
    (hlen : (active_descriptors w).length = n + 1) (hn : 1 ≤ n) :
    rebalance_weights w Desc.vgg = 7 / 10 ∧
    (∀ d ∈ active_descriptors w, d ≠ Desc.vgg →
      rebalance_weights w d = (3 / 10) / (n : ℚ)) ∧
    ((active_descriptors w).map (rebalance_weights w)).sum = 1 := by
  have hnd : (active_descriptors w).Nodup := descList_nodup.filter _
  have hcond : Desc.vgg ∈ active_descriptors w ∧ 1 < (active_descriptors w).length := by
    exact ⟨hvgg, by omega⟩
  have hother_len :
      ((active_descriptors w).filter (fun d => d ≠ Desc.vgg)).length = n := by
    have := length_filter_ne (active_descriptors w) Desc.vgg hnd hvgg
    omega
  have hvalue : rebalance_weights w = fun d =>
      if d = Desc.vgg then 7 / 10
      else if d ∈ (active_descriptors w).filter (fun d => d ≠ Desc.vgg) then
        (3 / 10) / (((active_descriptors w).filter (fun d => d ≠ Desc.vgg)).length : ℚ)
      else w d := by
    unfold rebalance_weights
    rw [if_pos hcond]
  have hvggval : rebalance_weights w Desc.vgg = 7 / 10 := by
    rw [hvalue]
    simp
  have hotherval : ∀ d ∈ active_descriptors w, d ≠ Desc.vgg →
      rebalance_weights w d = (3 / 10) / (n : ℚ) := by
    intro d hd hdne
    rw [hvalue]
    simp only [if_neg hdne]
    have hmem : d ∈ (active_descriptors w).filter (fun d => d ≠ Desc.vgg) := by
      rw [List.mem_filter]
      exact ⟨hd, by simp [hdne]⟩
    rw [if_pos hmem, hother_len]
  refine ⟨hvggval, hotherval, ?_⟩
  have hsum := sum_map_of_mem_nodup (active_descriptors w) (rebalance_weights w)
    Desc.vgg (7 / 10) ((3 / 10) / (n : ℚ)) hnd hvgg hvggval hotherval
  rw [hsum, hlen]
  have hn0 : (n : ℚ) ≠ 0 := by
    exact_mod_cast Nat.one_le_iff_ne_zero.mp hn
  have hcast : ((n + 1 - 1 : ℕ) : ℚ) = (n : ℚ) := by push_cast; ring
  rw [hcast]
  field_simp
  ring

/-- Witness for C4: the default request weights
`{vgg: 0.25, color: 0.25, lbp: 0.15, hog: 0.15, edge: 0.1, sift: 0.1}`
(spec scenario B) are rebalanced to `vgg = 0.70` and `0.30 / 5 = 0.06` for
each of the five other descriptors, summing to `1`. -/
theorem rebalance_weights_invariant_witness :
    rebalance_weights (request_weights
      ⟨50, 1/4, 1/4, 3/20, 3/20, 1/10, 1/10⟩) Desc.vgg = 7 / 10 ∧
    rebalance_weights (request_weights
      ⟨50, 1/4, 1/4, 3/20, 3/20, 1/10, 1/10⟩) Desc.color = (3 / 10) / ((5 : ℕ) : ℚ) ∧
    ((active_descriptors (request_weights
      ⟨50, 1/4, 1/4, 3/20, 3/20, 1/10, 1/10⟩)).map
        (rebalance_weights (request_weights
          ⟨50, 1/4, 1/4, 3/20, 3/20, 1/10, 1/10⟩))).sum = 1 := by
  have h := rebalance_weights_invariant
    (request_weights ⟨50, 1/4, 1/4, 3/20, 3/20, 1/10, 1/10⟩) 5
    (by simp [active_descriptors, descList, request_weights])
    (by simp [active_descriptors, descList, request_weights])
    (by norm_num)
  exact ⟨h.1, h.2.1 Desc.color
    (by simp [active_descriptors, descList, request_weights]) (by simp), h.2.2⟩

lemma rebalance_weights_of_nonpos (w : Desc → ℚ) (h : ∀ d, w d ≤ 0) :
    rebalance_weights w = w := by
  unfold rebalance_weights
  rw [if_neg]
  intro hcond
  have := (List.mem_filter.mp hcond.1).2
  simp only [decide_eq_true_eq] at this
  exact absurd this (not_lt.mpr (h Desc.vgg))

lemma first_pass_of_nonpos (env : Env) (w : Desc → ℚ) (k : ℕ) (h : ∀ d, w d ≤ 0) :
    first_pass env w k = [] := by
  unfold first_pass
  have haux : ∀ (ds : List Desc) (acc : List (ℕ × AccEntry)),
      ds.foldl (first_pass_step env w k) acc = acc := by
    intro ds
    induction ds with
    | nil => intro acc; rfl
    | cons d t ih =>
      intro acc
      rw [List.foldl_cons]
      have hstep : first_pass_step env w k acc d = acc := by
        unfold first_pass_step
        rw [if_pos (h d)]
      rw [hstep, ih acc]
  exact haux descList []

/-- C2 (amended): when every requested descriptor weight is nonpositive, the
multi-descriptor query does not fail — it succeeds with an empty result list
and `total = 0`; the code defines no `NoUsableDescriptors` error at all. -/
theorem search_all_zero_weights_succeeds (env : Env)
    (req : MultiDescriptorSearchRequest) (h : ∀ d, request_weights req d ≤ 0) :
    search_by_multi_descriptor env req =
      Except.ok { results := [], total := 0,
                  descriptor_weights := request_weights req } := by
  have hw : effective_weights req = request_weights req := by
    unfold effective_weights
    exact rebalance_weights_of_nonpos _ h
  have hfp : first_pass env (effective_weights req) req.top_k = [] := by
    rw [hw]
    exact first_pass_of_nonpos env _ _ h
  unfold search_by_multi_descriptor final_results top_candidates combined_results
  rw [hfp]
  simp [sort_by_score]

/-- Witness for C2 (amended): a concrete all-zero-weights request in a benign
environment yields the empty success response. -/
theorem search_all_zero_weights_succeeds_witness :
    search_by_multi_descriptor envTrivial reqAllZero =
      Except.ok { results := [], total := 0,
                  descriptor_weights := request_weights reqAllZero } :=
  search_all_zero_weights_succeeds envTrivial reqAllZero
    (by intro d; cases d <;> simp [request_weights, reqAllZero])

/-- Counterexample to C2 as stated: with every requested weight `0` the query
does not fail with `NoUsableDescriptors` — it succeeds and returns zero
candidates as a normal, non-error response. -/
theorem search_all_zero_weights_no_error :
    search_by_multi_descriptor envTrivial reqAllZero =
      Except.ok { results := [], total := 0,
                  descriptor_weights := request_weights reqAllZero } ∧
    search_by_multi_descriptor envTrivial reqAllZero ≠
      Except.error SearchError.noUsableDescriptors := by
  constructor
  · simp +decide [search_by_multi_descriptor, final_results, top_candidates, sort_by_score,
      combined_results, first_pass, first_pass_step, descList, effective_weights,
      rebalance_weights, active_descriptors, request_weights, reqAllZero, envTrivial]
  · intro hcontra
    simp +decide [search_by_multi_descriptor] at hcontra

lemma complete_scores_aux (env : Env) (w : Desc → ℚ) (cand : Candidate) (d : Desc)
    (h : (env.doc cand.image_id).fields d = none) :
    ∀ (ds : List Desc) (acc : List (Desc × ℝ)), d ∉ acc.map Prod.fst →
      d ∉ ((ds.foldl
        (fun acc d' =>
          if w d' ≤ 0 then acc
          else
            match (env.doc cand.image_id).fields d' with
            | none => acc
            | some dv =>
              match lookupKey d' cand.descriptor_scores with
              | some p => acc ++ [(d', ((p : ℚ) : ℝ))]
              | none => acc ++ [(d', direct_descriptor_score (env.queryVec d') dv)])
        acc).map Prod.fst) := by
  intro ds
  induction ds with
  | nil => intro acc hacc; exact hacc
  | cons d' t ih =>
    intro acc hacc
    rw [List.foldl_cons]
    apply ih
    by_cases hw : w d' ≤ 0
    · rw [if_pos hw]; exact hacc
    · rw [if_neg hw]
      cases hfield : (env.doc cand.image_id).fields d' with
      | none => exact hacc
      | some dv =>
        have hne : d' ≠ d := by
          intro heq
          rw [heq, h] at hfield
          cases hfield
        cases lookupKey d' cand.descriptor_scores with
        | some p =>
          simp only [List.map_append, List.mem_append]
          rintro (hmem | hmem)
          · exact hacc hmem
          · simp at hmem
            exact hne hmem.symm
        | none =>
          simp only [List.map_append, List.mem_append]
          rintro (hmem | hmem)
          · exact hacc hmem
          · simp at hmem
            exact hne hmem.symm

/-- C1 (amended): in the second-pass completion, a descriptor whose stored
vector is missing from the candidate's document is omitted from the completed
per-descriptor score map — no `0.0` entry is produced for it.  (The `0.0`
entries of the second pass come from the similarity computation itself: a
failing `np.dot` or a zero-norm vector.) -/
theorem complete_scores_missing_field_omitted (env : Env) (w : Desc → ℚ)
    (cand : Candidate) (d : Desc)
    (h : (env.doc cand.image_id).fields d = none) :
    d ∉ (complete_scores env w cand).map Prod.fst := by
  unfold complete_scores
  exact complete_scores_aux env w cand d h descList [] (by simp)

/-- Witness for C1 (amended): in the concrete missing-`lbp` environment the
surviving candidate's document has no `lbp_features` field and `lbp` is indeed
absent from its completed score map. -/
theorem complete_scores_missing_field_omitted_witness :
    (envMissingLbp.doc candMissingLbp.image_id).fields Desc.lbp = none ∧
    Desc.lbp ∉ (complete_scores envMissingLbp (effective_weights reqColorLbp)
      candMissingLbp).map Prod.fst :=
  ⟨rfl, complete_scores_missing_field_omitted envMissingLbp
    (effective_weights reqColorLbp) candMissingLbp Desc.lbp rfl⟩

/-- Counterexample to C1 as stated: `lbp` is active (weight `1/2 > 0`) and was
not scored for the surviving candidate in the first pass, and the candidate's
document has no stored `lbp_features` vector — yet the returned per-descriptor
map contains only `color`: no `0.0` entry for `lbp` is included. -/
theorem complete_scores_missing_field_counterexample :
    effective_weights reqColorLbp Desc.lbp = 1/2 ∧
    (final_results envMissingLbp reqColorLbp).map
      (fun c => c.descriptor_scores.map Prod.fst) = [[Desc.color]] := by
  constructor
  · simp +decide [effective_weights, rebalance_weights, active_descriptors,
      descList, request_weights, reqColorLbp]
  · simp +decide [final_results, top_candidates, sort_by_score, insert_by_score,
      combined_results, first_pass, first_pass_step, record_hit, setKey, lookupKey,
      descList, effective_weights, rebalance_weights, active_descriptors, request_weights,
      reqColorLbp, envMissingLbp, mk_candidate, second_pass_candidate, complete_scores,
      pct_of_es_score, pct_of_cosine, decode_cosine, round1, round_eq, min_def, max_def]

lemma mem_setKey {α β : Type} [DecidableEq α] (k : α) (v : β) (l : List (α × β))
    (p : α × β) (hp : p ∈ setKey k v l) : p = (k, v) ∨ p ∈ l := by
  induction l with
  | nil =>
    simp [setKey] at hp
    exact Or.inl hp
  | cons q t ih =>
    unfold setKey at hp
    by_cases hq : q.1 = k
    · rw [if_pos hq] at hp
      rcases List.mem_cons.mp hp with h | h
      · exact Or.inl h
      · exact Or.inr (List.mem_cons_of_mem _ h)
    · rw [if_neg hq] at hp
      rcases List.mem_cons.mp hp with h | h
      · exact Or.inr (h ▸ List.mem_cons_self q t)
      · rcases ih h with h' | h'
        · exact Or.inl h'
        · exact Or.inr (List.mem_cons_of_mem _ h')

lemma mem_keys_setKey {α β : Type} [DecidableEq α] (k a : α) (v : β)
    (l : List (α × β)) (ha : a ∈ (setKey k v l).map Prod.fst) :
    a = k ∨ a ∈ l.map Prod.fst := by
  rcases List.mem_map.mp ha with ⟨p, hp, rfl⟩
  rcases mem_setKey k v l p hp with h | h
  · exact Or.inl (by rw [h])
  · exact Or.inr (List.mem_map.mpr ⟨p, h, rfl⟩)

lemma lookupKey_mem {α β : Type} [DecidableEq α] (k : α) (l : List (α × β))
    (e : β) (h : lookupKey k l = some e) : (k, e) ∈ l := by
  induction l with
  | nil => cases h
  | cons q t ih =>
    obtain ⟨a, b⟩ := q
    unfold lookupKey at h
    by_cases hq : a = k
    · rw [if_pos hq] at h
      injection h with h
      exact List.mem_cons.mpr (Or.inl (by rw [← hq, ← h]))
    · rw [if_neg hq] at h
      exact List.mem_cons_of_mem _ (ih h)

/-- The invariant carried through the first pass: descriptor `d` appears in no
entry's score maps. -/
def NoKey (d : Desc) (acc : List (ℕ × AccEntry)) : Prop :=
  ∀ p ∈ acc, d ∉ p.2.descriptor_scores.map Prod.fst ∧
             d ∉ p.2.weighted_scores.map Prod.fst

lemma noKey_record_hit (d d' : Desc) (wt : ℚ) (acc : List (ℕ × AccEntry))
    (hit : ℕ × ℚ) (hne : d' ≠ d) (hacc : NoKey d acc) :
    NoKey d (record_hit d' wt acc hit) := by
  intro p hp
  unfold record_hit at hp
  rcases mem_setKey _ _ _ _ hp with h | h
  · subst h
    have hold : d ∉ ((lookupKey hit.1 acc).getD ⟨[], []⟩).descriptor_scores.map Prod.fst ∧
        d ∉ ((lookupKey hit.1 acc).getD ⟨[], []⟩).weighted_scores.map Prod.fst := by
      cases hlk : lookupKey hit.1 acc with
      | none => simp [hlk]
      | some e =>
        simp only [hlk, Option.getD_some]
        exact hacc (hit.1, e) (lookupKey_mem _ _ _ hlk)
    constructor
    · intro hmem
      rcases mem_keys_setKey _ _ _ _ hmem with h' | h'
      · exact hne h'.symm
      · exact hold.1 h'
    · intro hmem
      rcases mem_keys_setKey _ _ _ _ hmem with h' | h'
      · exact hne h'.symm
      · exact hold.2 h'
  · exact hacc p h

lemma noKey_foldl_record (d d' : Desc) (wt : ℚ) (hne : d' ≠ d) :
    ∀ (hits : List (ℕ × ℚ)) (acc : List (ℕ × AccEntry)), NoKey d acc →
      NoKey d (hits.foldl (record_hit d' wt) acc) := by
  intro hits
  induction hits with
  | nil => intro acc hacc; exact hacc
  | cons hit t ih =>
    intro acc hacc
    rw [List.foldl_cons]
    exact ih _ (noKey_record_hit d d' wt acc hit hne hacc)

/-- C3 (amended, first half): a descriptor whose backend search call raises is
recorded in no first-pass entry — it contributes neither a raw nor a weighted
score to any candidate, so every combined score is computed purely from the
remaining descriptors. -/
theorem failed_search_absent_from_first_pass (env : Env) (w : Desc → ℚ)
    (k : ℕ) (d : Desc) (h : env.search d (k * 2) = none) :
    ∀ p ∈ first_pass env w k, d ∉ p.2.descriptor_scores.map Prod.fst ∧
      d ∉ p.2.weighted_scores.map Prod.fst := by
  unfold first_pass
  have haux : ∀ (ds : List Desc) (acc : List (ℕ × AccEntry)), NoKey d acc →
      NoKey d (ds.foldl (first_pass_step env w k) acc) := by
    intro ds
    induction ds with
    | nil => intro acc hacc; exact hacc
    | cons d' t ih =>
      intro acc hacc
      rw [List.foldl_cons]
      apply ih
      unfold first_pass_step
      by_cases hw : w d' ≤ 0
      · rw [if_pos hw]; exact hacc
      · rw [if_neg hw]
        cases hs : env.search d' (k * 2) with
        | none => exact hacc
        | some hits =>
          have hne : d' ≠ d := by
            intro heq
            rw [heq, h] at hs
            cases hs
          exact noKey_foldl_record d d' (w d') hne hits acc hacc
  exact haux descList [] (by intro p hp; cases hp)

/-- Witness for C3 (amended): in the concrete four-active-descriptors
environment the `sift` search raises, and the single first-pass entry records
raw and weighted scores for `color`, `lbp` and `hog` only — no `sift` key. -/
theorem failed_search_absent_from_first_pass_witness :
    envSiftFails.search Desc.sift (reqFourActive.top_k * 2) = none ∧
    (Desc.sift ∉ (([(Desc.color, (9:ℚ)/10), (Desc.lbp, 4/5), (Desc.hog, 1)] :
        List (Desc × ℚ)).map Prod.fst) ∧
     Desc.sift ∉ (([(Desc.color, (9:ℚ)/40), (Desc.lbp, 1/5), (Desc.hog, 1/4)] :
        List (Desc × ℚ)).map Prod.fst)) :=
  ⟨rfl,
   failed_search_absent_from_first_pass envSiftFails
     (effective_weights reqFourActive) reqFourActive.top_k Desc.sift rfl
     (1, ⟨[(Desc.color, 9/10), (Desc.lbp, 4/5), (Desc.hog, 1)],
          [(Desc.color, 9/40), (Desc.lbp, 1/5), (Desc.hog, 1/4)]⟩)
     (by
       simp +decide [first_pass, first_pass_step, record_hit, setKey, lookupKey,
         descList, effective_weights, rebalance_weights, active_descriptors,
         request_weights, reqFourActive, envSiftFails]
       norm_num)⟩

/-- Counterexample to C3 as stated: with `sift`'s search call failing and the
three other active descriptors (`color`, `lbp`, `hog`) succeeding, the query
still returns a ranked result — but `sift` is *present* in the returned
candidate's per-descriptor map, because the second pass recomputes it directly
from the candidate's stored `sift_features` vector. -/
theorem failed_search_reappears_in_second_pass :
    (final_results envSiftFails reqFourActive).map
      (fun c => c.descriptor_scores.map Prod.fst) =
      [[Desc.color, Desc.lbp, Desc.hog, Desc.sift]] ∧
    (final_results envSiftFails reqFourActive).map
      (fun c => c.score) = [27/40] := by
  constructor
  · simp +decide [final_results, top_candidates, sort_by_score, insert_by_score,
      combined_results, first_pass, first_pass_step, record_hit, setKey, lookupKey,
      descList, effective_weights, rebalance_weights, active_descriptors, request_weights,
      reqFourActive, envSiftFails, mk_candidate, second_pass_candidate, complete_scores,
      pct_of_es_score, pct_of_cosine, decode_cosine, round1, round_eq, min_def, max_def]
  · simp +decide [final_results, top_candidates, sort_by_score, insert_by_score,
      combined_results, first_pass, first_pass_step, record_hit, setKey, lookupKey,
      descList, effective_weights, rebalance_weights, active_descriptors, request_weights,
      reqFourActive, envSiftFails, mk_candidate, second_pass_candidate, complete_scores,
      pct_of_es_score, pct_of_cosine, decode_cosine, round1, round_eq, min_def, max_def]
    norm_num

lemma mem_insert_by_score (c x : Candidate) (l : List Candidate)
    (hx : x ∈ insert_by_score c l) : x = c ∨ x ∈ l := by
  induction l with
  | nil =>
    simp [insert_by_score] at hx
    exact Or.inl hx
  | cons a t ih =>
    unfold insert_by_score at hx
    by_cases hlt : a.score < c.score
    · rw [if_pos hlt] at hx
      rcases List.mem_cons.mp hx with h | h
      · exact Or.inl h
      · exact Or.inr h
    · rw [if_neg hlt] at hx
      rcases List.mem_cons.mp hx with h | h
      · exact Or.inr (h ▸ List.mem_cons_self a t)
      · rcases ih h with h' | h'
        · exact Or.inl h'
        · exact Or.inr (List.mem_cons_of_mem _ h')

lemma sorted_insert_by_score (c : Candidate) (l : List Candidate)
    (hl : List.Sorted (fun a b : Candidate => b.score ≤ a.score) l) :
    List.Sorted (fun a b : Candidate => b.score ≤ a.score) (insert_by_score c l) := by
  induction l with
  | nil => simp [insert_by_score]
  | cons a t ih =>
    unfold insert_by_score
    by_cases hlt : a.score < c.score
    · rw [if_pos hlt]
      refine List.sorted_cons.mpr ⟨?_, hl⟩
      intro b hb
      rcases List.mem_cons.mp hb with h | h
      · rw [h]; exact le_of_lt hlt
      · exact le_trans ((List.sorted_cons.mp hl).1 b h) (le_of_lt hlt)
    · rw [if_neg hlt]
      refine List.sorted_cons.mpr ⟨?_, ih (List.sorted_cons.mp hl).2⟩
      intro b hb
      rcases mem_insert_by_score c b t hb with h | h
      · rw [h]; exact not_lt.mp hlt
      · exact (List.sorted_cons.mp hl).1 b h

lemma sorted_sort_by_score (l : List Candidate) :
    List.Sorted (fun a b : Candidate => b.score ≤ a.score) (sort_by_score l) := by
  unfold sort_by_score
  have haux : ∀ (l' : List Candidate) (acc : List Candidate),
      List.Sorted (fun a b : Candidate => b.score ≤ a.score) acc →
      List.Sorted (fun a b : Candidate => b.score ≤ a.score)
        (l'.foldl (fun acc c => insert_by_score c acc) acc) := by
    intro l'
    induction l' with
    | nil => intro acc hacc; exact hacc
    | cons c t ih =>
      intro acc hacc
      rw [List.foldl_cons]
      exact ih _ (sorted_insert_by_score c acc hacc)
  exact haux l [] (by simp)

/-- C9: the second-pass completion only rewrites each surviving candidate's
per-descriptor score map and `global_match` — the returned candidates carry
exactly the top candidates' ids and first-pass combined scores, in the same
order, and that order is descending by combined score. -/
theorem second_pass_preserves_scores_and_order (env : Env)
    (req : MultiDescriptorSearchRequest) :
    (final_results env req).map (fun c => c.score) =
      (top_candidates env (effective_weights req) req.top_k).map (fun c => c.score) ∧
    (final_results env req).map (fun c => c.id) =
      (top_candidates env (effective_weights req) req.top_k).map (fun c => c.image_id) ∧
    List.Sorted (fun a b : ℚ => b ≤ a) ((final_results env req).map (fun c => c.score)) := by
  have hscore : (final_results env req).map (fun c => c.score) =
      (top_candidates env (effective_weights req) req.top_k).map (fun c => c.score) := by
    unfold final_results
    rw [List.map_map]
    rfl
  refine ⟨hscore, ?_, ?_⟩
  · unfold final_results
    rw [List.map_map]
    rfl
  · rw [hscore]
    have hsorted : List.Sorted (fun a b : Candidate => b.score ≤ a.score)
        (top_candidates env (effective_weights req) req.top_k) := by
      unfold top_candidates
      exact (sorted_sort_by_score _).sublist
        (List.take_sublist _ _)
    unfold List.Sorted at hsorted ⊢
    exact (List.pairwise_map).mpr hsorted

lemma length_normalize_vector (v : List ℚ) :
    (normalize_vector v).length = v.length := by
  unfold normalize_vector
  split <;> simp

lemma sumSq_nonneg (v : List ℚ) : 0 ≤ sumSq v := by
  unfold sumSq
  apply List.sum_nonneg
  intro x hx
  rcases List.mem_map.mp hx with ⟨y, hy, rfl⟩
  exact mul_self_nonneg y

lemma sum_map_divR {α : Type} (l : List α) (g : α → ℝ) (c : ℝ) :
    (l.map (fun x => g x / c)).sum = (l.map g).sum / c := by
  induction l with
  | nil => simp
  | cons a t ih => simp [ih, add_div]

lemma sumSqR_normalize (v : List ℚ) (h : sumSq v ≠ 0) :
    sumSqR (normalize_vector v) = 1 := by
  unfold normalize_vector
  rw [if_neg h]
  unfold sumSqR
  rw [List.map_map]
  have hS : (0 : ℝ) < ((sumSq v : ℚ) : ℝ) := by
    exact_mod_cast lt_of_le_of_ne (sumSq_nonneg v) (Ne.symm h)
  have hs : Real.sqrt ((sumSq v : ℚ) : ℝ) * Real.sqrt ((sumSq v : ℚ) : ℝ)
      = ((sumSq v : ℚ) : ℝ) := Real.mul_self_sqrt (le_of_lt hS)
  have hfun : ((fun y : ℝ => y * y) ∘ fun x : ℚ => (x : ℝ) / Real.sqrt ((sumSq v : ℚ) : ℝ))
      = fun x : ℚ => ((x : ℝ) * (x : ℝ)) / ((sumSq v : ℚ) : ℝ) := by
    funext x
    simp only [Function.comp_apply]
    rw [div_mul_div_comm, hs]
  rw [hfun, sum_map_divR]
  have hsum : (v.map (fun x : ℚ => (x : ℝ) * (x : ℝ))).sum = ((sumSq v : ℚ) : ℝ) := by
    unfold sumSq
    rw [Rat.cast_list_sum, List.map_map]
    simp [Function.comp_def, Rat.cast_mul]
  rw [hsum]
  exact div_self (ne_of_gt hS)

/-- C6 as evaluated on the failing input: on a constant 3×3 image (every LBP
code is `8`, so `n_bins = 8 + 1 = 9`) the extractor returns a vector of **9**
values, not the declared 10 — even though the raw density histogram does sum
to `1` exactly.  This contradicts the extractor's own declared
`self.dimension = n_points + 2 = 10`, its exception path (which returns 10
zeros), and the Elasticsearch mapping `lbp_features.dims = 10`. -/
theorem lbp_constant_image_wrong_dimension :
    (LBPExtractor.extract (lbp_codes_constant 3 3)).length = 9 ∧
    (lbp_hist (lbp_codes_constant 3 3)).sum = 1 := by
  constructor
  · unfold LBPExtractor.extract
    rw [length_normalize_vector]
    have hmax : (lbp_codes_constant 3 3).foldr max 0 = 8 := by decide
    simp [lbp_hist, hmax]
  · have hcodes : lbp_codes_constant 3 3 = List.replicate 9 8 := by decide
    rw [hcodes]
    simp [lbp_hist, List.range_succ, List.count_replicate]

lemma length_hog_fit_81 (features : List ℚ) : (hog_fit_81 features).length = 81 := by
  unfold hog_fit_81
  split_ifs with h1 h2
  · exact h1
  · rw [List.length_append, List.length_replicate]
    omega
  · rw [List.length_take]
    omega

/-- C7: for any raw HOG feature vector computed by the library on the 128×128
resized grayscale image — whatever its length — the extractor returns exactly
81 values: the features are zero-padded or truncated to 81 and the result is
L2-normalized (unit squared norm whenever the fitted vector is nonzero). -/
theorem hog_extract_81_normalized (features : List ℚ) :
    (HOGExtractor.extract features).length = 81 ∧
    (sumSq (hog_fit_81 features) ≠ 0 → sumSqR (HOGExtractor.extract features) = 1) := by
  constructor
  · unfold HOGExtractor.extract
    rw [length_normalize_vector, length_hog_fit_81]
  · intro h
    unfold HOGExtractor.extract
    exact sumSqR_normalize _ h

/-- Witness for C7 at the concrete one-entry raw feature vector `[2]`: the
output is padded to 81 entries and has unit squared norm. -/
theorem hog_extract_81_normalized_witness :
    (HOGExtractor.extract [2]).length = 81 ∧
    sumSqR (HOGExtractor.extract [2]) = 1 :=
  ⟨(hog_extract_81_normalized [2]).1,
   (hog_extract_81_normalized [2]).2 (by
     have hfit : sumSq (hog_fit_81 [2]) = 4 := by
       simp [hog_fit_81, sumSq, List.map_replicate, List.sum_replicate,
         List.map_append, List.sum_append]
       norm_num
     rw [hfit]
     norm_num)⟩

lemma length_mean_pool (rows : List (List ℝ)) :
    (mean_pool rows).length = col_count rows := by
  simp [mean_pool]

lemma length_std_pool (rows : List (List ℝ)) :
    (std_pool rows).length = col_count rows := by
  simp [std_pool]

lemma fit128_of_length (l : List ℝ) (h : l.length = 128) :
    (if l.length < 128 then l ++ List.replicate (128 - l.length) 0
     else if 128 < l.length then l.take 128 else l) = l := by
  rw [h]
  simp

lemma length_final_normalize (l : List ℝ) :
    (if epsSIFT < normR l then l.map (fun x => x / normR l) else l).length = l.length := by
  split <;> simp

lemma length_sift_aggregate (rows : List (List ℚ)) :
    (sift_aggregate rows).length = 128 := by
  unfold sift_aggregate
  dsimp only
  have hmp := length_mean_pool (rootSIFT_rows rows)
  have hsp := length_std_pool (rootSIFT_rows rows)
  by_cases h64 : 64 ≤ (mean_pool (rootSIFT_rows rows)).length
  · rw [if_pos h64, if_pos h64]
    have hlen : ((mean_pool (rootSIFT_rows rows)).take 64 ++
        (std_pool (rootSIFT_rows rows)).take 64).length = 128 := by
      rw [List.length_append, List.length_take, List.length_take]
      omega
    rw [fit128_of_length _ hlen, length_final_normalize]
    exact hlen
  · rw [if_neg h64, if_neg h64]
    have hlen : ((mean_pool (rootSIFT_rows rows) ++
          List.replicate (64 - (mean_pool (rootSIFT_rows rows)).length) 0) ++
        (std_pool (rootSIFT_rows rows) ++
          List.replicate (64 - (std_pool (rootSIFT_rows rows)).length) 0)).length = 128 := by
      rw [List.length_append, List.length_append, List.length_append,
        List.length_replicate, List.length_replicate]
      omega
    rw [fit128_of_length _ hlen, length_final_normalize]
    exact hlen

/-- C8: `SIFTExtractor.extract` is total on the detector's output and always
returns exactly 128 values; when the detector finds no keypoints (a `None` or
empty descriptor array) the result is the 128-dimensional all-zero vector —
a soft failure, not an error. -/
theorem sift_extract_128 (descriptors : Option (List (List ℚ))) :
    (SIFTExtractor.extract descriptors).length = 128 ∧
    ((descriptors = none ∨ descriptors = some []) →
      SIFTExtractor.extract descriptors = List.replicate 128 0) := by
  cases descriptors with
  | none =>
    exact ⟨by simp [SIFTExtractor.extract], fun _ => rfl⟩
  | some rows =>
    cases rows with
    | nil =>
      constructor
      · simp [SIFTExtractor.extract]
      · intro hcase
        simp [SIFTExtractor.extract]
    | cons r rs =>
      constructor
      · have hne : (r :: rs).length ≠ 0 := by simp
        simp only [SIFTExtractor.extract, if_neg hne]
        exact length_sift_aggregate (r :: rs)
      · intro hcase
        rcases hcase with hcase | hcase
        · cases hcase
        · injection hcase with hcase
          cases hcase

/-- Witness for C8 at the concrete detector output `none` (no keypoints): the
result has 128 entries and is the all-zero vector. -/
theorem sift_extract_128_witness :
    (SIFTExtractor.extract none).length = 128 ∧
    SIFTExtractor.extract none = List.replicate 128 0 :=
  ⟨(sift_extract_128 none).1, (sift_extract_128 none).2 (Or.inl rfl)⟩

lemma indicator_sum_range8 (j : ℕ) (hj : j < 8) :
    ((List.range 8).map (fun b => if j = b then (1 : ℚ) else 0)).sum = 1 := by
  interval_cases j <;> simp [List.range_succ]

lemma sum_calcHist8 (channel : List ℕ) (h : ∀ v ∈ channel, v < 256) :
    (calcHist8 channel).sum = channel.length := by
  induction channel with
  | nil => simp [calcHist8]
  | cons v t ih =>
    have hv : v < 256 := h v (List.mem_cons_self v t)
    have ht : ∀ x ∈ t, x < 256 := fun x hx => h x (List.mem_cons_of_mem v hx)
    have hcount : ∀ b : ℕ,
        ((((v :: t).countP (fun x => x / 32 = b)) : ℕ) : ℚ) =
          (((t.countP (fun x => x / 32 = b)) : ℕ) : ℚ) +
          (if v / 32 = b then (1 : ℚ) else 0) := by
      intro b
      rw [List.countP_cons]
      by_cases hb : v / 32 = b
      · simp [hb]
      · simp [hb]
    unfold calcHist8
    calc ((List.range 8).map
          (fun b => (((v :: t).countP (fun x => x / 32 = b) : ℕ) : ℚ))).sum
        = ((List.range 8).map
          (fun b => (((t.countP (fun x => x / 32 = b)) : ℕ) : ℚ) +
            (if v / 32 = b then (1 : ℚ) else 0))).sum := by
          congr 1
          exact List.map_congr_left (fun b _ => hcount b)
      _ = ((List.range 8).map
            (fun b => (((t.countP (fun x => x / 32 = b)) : ℕ) : ℚ))).sum +
          ((List.range 8).map (fun b => if v / 32 = b then (1 : ℚ) else 0)).sum := by
          exact sum_map_add _ _ _
      _ = (t.length : ℚ) + 1 := by
          have ih' := ih ht
          unfold calcHist8 at ih'
          rw [ih', indicator_sum_range8 (v / 32)
            ((Nat.div_lt_iff_lt_mul (by norm_num)).mpr (by omega))]
      _ = ((v :: t).length : ℚ) := by
          rw [List.length_cons]
          push_cast
          ring

lemma mem_calcHist8_nonneg (channel : List ℕ) (x : ℚ) (hx : x ∈ calcHist8 channel) :
    0 ≤ x := by
  rcases List.mem_map.mp hx with ⟨b, hb, rfl⟩
  positivity

/-- C10: on its non-exception path, for a decodable (hence nonempty) image
with byte-valued channels, `ColorHistogramExtractor.extract` returns 24
values, each at least `1e-10` (hence strictly positive), whose sum is exactly
`1 + 24 * 1e-10`; consequently its all-zero 24-vector can only come from the
exception path. -/
theorem color_extract_props (r g b : List ℕ)
    (hr : ∀ v ∈ r, v < 256) (hg : ∀ v ∈ g, v < 256) (hb : ∀ v ∈ b, v < 256)
    (hne : 0 < r.length + g.length + b.length) :
    (ColorHistogramExtractor.extract r g b).length = 24 ∧
    (∀ x ∈ ColorHistogramExtractor.extract r g b, eps10 ≤ x) ∧
    (ColorHistogramExtractor.extract r g b).sum = 1 + 24 * eps10 := by
  have hlen8 : ∀ ch : List ℕ, (calcHist8 ch).length = 8 := by
    intro ch
    simp [calcHist8]
  have hsum : (calcHist8 r ++ calcHist8 g ++ calcHist8 b).sum =
      ((r.length + g.length + b.length : ℕ) : ℚ) := by
    rw [List.sum_append, List.sum_append, sum_calcHist8 r hr, sum_calcHist8 g hg,
      sum_calcHist8 b hb]
    push_cast
    ring
  have hpos : 0 < (calcHist8 r ++ calcHist8 g ++ calcHist8 b).sum := by
    rw [hsum]
    exact_mod_cast hne
  have hlen24 : (calcHist8 r ++ calcHist8 g ++ calcHist8 b).length = 24 := by
    rw [List.length_append, List.length_append, hlen8, hlen8, hlen8]
  unfold ColorHistogramExtractor.extract
  dsimp only
  rw [if_pos hpos]
  refine ⟨?_, ?_, ?_⟩
  · simp [hlen8]
  · intro x hx
    rcases List.mem_map.mp hx with ⟨y, hy, rfl⟩
    rcases List.mem_map.mp hy with ⟨z, hz, rfl⟩
    have hz0 : 0 ≤ z := by
      rcases List.mem_append.mp hz with hz' | hz'
      · rcases List.mem_append.mp hz' with hz'' | hz''
        · exact mem_calcHist8_nonneg r z hz''
        · exact mem_calcHist8_nonneg g z hz''
      · exact mem_calcHist8_nonneg b z hz'
    have : 0 ≤ z / (calcHist8 r ++ calcHist8 g ++ calcHist8 b).sum :=
      div_nonneg hz0 (le_of_lt hpos)
    linarith
  · rw [sum_map_add_const, sum_map_div]
    simp only [List.map_id']
    rw [div_self (ne_of_gt hpos), List.length_map, hlen24]
    norm_num

/-- Witness for C10 at the concrete one-pixel black image
(`r = g = b = [0]`): 24 values summing to exactly `1 + 24 * 1e-10`. -/
theorem color_extract_props_witness :
    (ColorHistogramExtractor.extract [0] [0] [0]).length = 24 ∧
    (ColorHistogramExtractor.extract [0] [0] [0]).sum = 1 + 24 * eps10 :=
  ⟨(color_extract_props [0] [0] [0] (by simp) (by simp) (by simp) (by simp)).1,
   (color_extract_props [0] [0] [0] (by simp) (by simp) (by simp) (by simp)).2.2⟩
